import Mathlib

/-!
Verification of the ashttp command-line HTTP client.

Strings are modelled as lists of characters (`Str`), Go string-keyed maps as
either functions `Str → Option Str` (when only assignment/lookup matters) or
as lists of key/value pairs (an enumeration of the map, when the code iterates
over the map; iteration order of a Go map is unspecified, so theorems that
depend on order quantify over permutations of the enumeration).
-/

namespace Ashttp

/-- Strings as lists of characters. -/
abbrev Str := List Char

/-- Go map assignment `m[k] = v` on a string-keyed map, modelled as a function
update: assigning key `k` overwrites any earlier entry with the same key.
HTTP header keys are modelled post-canonicalization, so `http.Header.Set` is
exact-key overwrite. -/
def mapSet (m : Str → Option Str) (k v : Str) : Str → Option Str :=
  fun q => if q = k then some v else m q

/-- The empty string-keyed map (`http.NewRequest` starts with no headers;
`NewAction` starts with an empty options map). -/
def mapEmpty : Str → Option Str := fun _ => none

/-- Lowercasing of an ASCII string, as `strings.ToLower` does on ASCII input. -/
def toLowerStr (s : Str) : Str := s.map Char.toLower

/-- Uppercasing of an ASCII string, as `strings.ToUpper` does on ASCII input. -/
def toUpperStr (s : Str) : Str := s.map Char.toUpper

/-- The `strings.Join(parts, sep)` function. -/
def joinSep (sep : Str) (parts : List Str) : Str := List.intercalate sep parts

/-! ## internal/url.go -/

/-- The fold inside `QueryString.ToURL`: for each key/value pair the code runs
`query = fmt.Sprintf("%s&%s=%s", query, k, v)`. The list is an enumeration of
the Go map. -/
def queryFold (l : List (Str × Str)) : Str :=
  l.foldl (fun acc kv => acc ++ '&' :: (kv.1 ++ '=' :: kv.2)) []

/-- `QueryString.ToURL` from internal/url.go: fold all pairs into
`&k=v` segments, return empty for the empty (or nil) map, otherwise drop the
leading `&` (the Go code slices `query[1:]`). -/
def queryToURL (l : List (Str × Str)) : Str :=
  let query := queryFold l
  if query = [] then query else query.drop 1

/-- `PathComponents.ToURL` from internal/url.go: `strings.Join(p, "/")`. -/
def pathCompsToURL (p : List Str) : Str := List.intercalate ['/'] p

/-- The `Path` function from internal/url.go: path components joined by `/`,
and when the query string is nonempty, `?` and the query string appended. -/
def urlPath (p : List Str) (q : List (Str × Str)) : Str :=
  let url := pathCompsToURL p
  let queryString := queryToURL q
  if queryString = [] then url else url ++ '?' :: queryString

/-! ## cmd/action.go -/

/-- The two-character flag marker `--`. -/
def flagMark : Str := ['-', '-']

/-- `strings.HasPrefix(arg, "--")`. -/
def isFlagTok (t : Str) : Bool := flagMark.isPrefixOf t

/-- `strings.TrimPrefix(arg, "--")`: drop the marker when present. -/
def flagName (t : Str) : Str := if isFlagTok t then t.drop 2 else t

/-- The state of the token-scanning loop in `NewAction`: the `readingFlag`
and `lastFlag` loop variables, plus the options map and path components
accumulated so far. -/
structure ScanState where
  readingFlag : Bool
  lastFlag : Str
  options : Str → Option Str
  path : List Str

/-- One iteration of the scanning loop in `NewAction` (cmd/action.go): a
`--`-prefixed token enters flag mode, strips the marker, and records the flag
with value empty string; otherwise, in flag mode the token overwrites the
pending flag's value, and out of flag mode it is appended to the path. -/
def scanStep (s : ScanState) (t : Str) : ScanState :=
  if isFlagTok t then
    { s with readingFlag := true, lastFlag := flagName t,
             options := mapSet s.options (flagName t) [] }
  else if s.readingFlag then
    { s with options := mapSet s.options s.lastFlag t }
  else
    { s with path := s.path ++ [t] }

/-- The initial scan state: not in flag mode, empty options, empty path. -/
def initScan : ScanState := ⟨false, [], mapEmpty, []⟩

/-- The whole scanning loop of `NewAction` over the tokens after the alias
and the method. -/
def scanArgs (ts : List Str) : ScanState := ts.foldl scanStep initScan

/-- The `acceptedMethods` package variable: `GET` and `DELETE` lowercased. -/
def acceptedMethods : List Str := [toLowerStr "GET".toList, toLowerStr "DELETE".toList]

/-- `validateHTTPMethod` from cmd/action.go: an exact-string membership test
against `acceptedMethods` (`slices.Contains`); on failure the error names the
accepted set. -/
def validateHTTPMethod (m : Str) : Except Str Unit :=
  if m ∈ acceptedMethods then .ok ()
  else .error ("invalid http method, only ".toList ++
               joinSep ", ".toList acceptedMethods ++ " are supported".toList)

/-- The errors `NewAction` can produce: the distinct `errInvalidFormat`
(wrapped with `%w`, so `errors.Is` matches it) and the unsupported-method
error (which does not wrap `errInvalidFormat`). -/
inductive ActionError where
  | invalidFormat (msg : Str)
  | unsupportedMethod (msg : Str)
deriving DecidableEq

/-- The `Action` structure from cmd/action.go. -/
structure Action where
  urlAlias : Str
  httpMethod : Str
  urlPathComponents : List Str
  options : Str → Option Str

/-- `NewAction` from cmd/action.go: fewer than two tokens is the
invalid-format error; otherwise token 1 is validated as the method and the
remaining tokens are scanned into path components and options. -/
def NewAction (args : List Str) : Except ActionError Action :=
  match args with
  | a :: m :: rest =>
    match validateHTTPMethod m with
    | .error e => .error (.unsupportedMethod ("unsuported http method: ".toList ++ e))
    | .ok _ =>
      let st := scanArgs rest
      .ok ⟨a, m, st.path, st.options⟩
  | _ => .error (.invalidFormat "invalid format: empty arguments".toList)

/-! ## internal (package http) request building, from internal/url.go -/

/-- `config.Setting`: a base URL and the default headers (an enumeration of
the Go header map). -/
structure Setting where
  url : Str
  headers : List (Str × Str)

/-- The `Request` structure of package http (internal/url.go). -/
structure Request where
  path : Str
  method : Str
  headers : List (Str × Str)
  arguments : List (Str × Str)

/-- The observable parts of the `*http.Request` built by the code: URL,
method, header map and body. `http.NewRequest` itself is standard library
code and is modelled as succeeding with an empty header map and the given
URL, method and (nil) body. -/
structure HTTPRequest where
  url : Str
  method : Str
  headers : Str → Option Str
  body : Option Str

/-- Key of the header set first by `ToHTTPRequest`. -/
def contentTypeKey : Str := "Content-Type".toList

/-- Value of the header set first by `ToHTTPRequest`. -/
def contentTypeVal : Str := "application/json".toList

/-- Application of a header map enumeration via repeated `Header.Set`. -/
def applyHeaders (h : Str → Option Str) (l : List (Str × Str)) : Str → Option Str :=
  l.foldl (fun acc kv => mapSet acc kv.1 kv.2) h

/-- `Request.buildHTTPRequest` from internal/url.go: uppercase the method and
accept only `GET` and `DELETE`; compose the URL as base, `/`, path, and the
`?`-query only when the query string is nonempty; the request is bodiless. -/
def buildHTTPRequest (r : Request) (s : Setting) : Except Str HTTPRequest :=
  if toUpperStr r.method = "GET".toList ∨ toUpperStr r.method = "DELETE".toList then
    let queryString := queryToURL r.arguments
    let url := s.url ++ '/' :: r.path
    let url := if queryString = [] then url else url ++ '?' :: queryString
    .ok ⟨url, r.method, mapEmpty, none⟩
  else
    .error "method not suported".toList

/-- `Request.ToHTTPRequest` from internal/url.go: build the request, then set
`Content-Type: application/json`, then every config default header, then
every request header, each `Header.Set` overwriting a same-named earlier
entry. -/
def toHTTPRequest (r : Request) (s : Setting) : Except Str HTTPRequest :=
  match buildHTTPRequest r s with
  | .error e => .error e
  | .ok req =>
    .ok { req with
          headers := applyHeaders (applyHeaders
            (mapSet req.headers contentTypeKey contentTypeVal) s.headers) r.headers }

/-! ## cmd/action.go alias resolution -/

/-- Exact-string lookup in the loaded settings map (an enumeration with
unique keys, as produced from the Go map). -/
def lookupAlias : List (Str × Setting) → Str → Option Setting
  | [], _ => none
  | (k, s) :: rest, a => if k = a then some s else lookupAlias rest a

/-- `Action.Setting` from cmd/action.go, parametrized by the loaded settings
map and the config file path: return the stored entry on a hit, otherwise the
error `no config found for <alias>, make sure it exists at <path>`. -/
def settingFor (settings : List (Str × Setting)) (aliasName cfgPath : Str) :
    Except Str Setting :=
  match lookupAlias settings aliasName with
  | some s => .ok s
  | none => .error ("no config found for ".toList ++ aliasName ++
                    ", make sure it exists at ".toList ++ cfgPath)

/-- Substring containment: `needle` occurs contiguously inside `hay`. -/
def strContains (needle hay : Str) : Prop := ∃ l r, hay = l ++ needle ++ r

/-! ## cmd/main.go response formatting -/

/-- A JSON value, as produced by the standard library decoder. -/
inductive Js where
  | null
  | boolean (v : Bool)
  | num (n : Int)
  | str (s : Str)
  | arr (xs : List Js)
  | obj (fields : List (Str × Js))

/-- `prettyResponse` from cmd/main.go, parametrized by the standard library
JSON decoder (`json.Unmarshal`, which either fails or yields a value) and the
indenting encoder (`json.MarshalIndent` with two-space indent, which cannot
fail on a decoded value): on decode failure the raw bytes are returned as
text with no error, on success the re-serialized value is returned. -/
def prettyResponse (decode : Str → Option Js) (render : Js → Str) (resp : Str) :
    Except Str Str :=
  match decode resp with
  | none => .ok resp
  | some d => .ok (render d)

/-! ## Observation functions used by the claims -/

/-- Splitting one `key=value` pair at the first `=`, the re-splitting step of
the query-string round-trip claim. -/
def splitKV (p : Str) : Str × Str :=
  (p.takeWhile (fun c => c ≠ '='), (p.dropWhile (fun c => c ≠ '=')).drop 1)

/-- Re-splitting a serialized query string: split by `&` into pairs, then
each pair by `=` into key and value (empty input yields no pairs). -/
def parseQuery (s : Str) : List (Str × Str) :=
  if s = [] then [] else (s.splitOn '&').map splitKV

/-- Discriminator: is this `NewAction` result the invalid-format error? -/
def isInvalidFormatErr : Except ActionError Action → Bool
  | .error (.invalidFormat _) => true
  | _ => false

/-- Discriminator: is this `NewAction` result the unsupported-method error? -/
def isUnsupportedErr : Except ActionError Action → Bool
  | .error (.unsupportedMethod _) => true
  | _ => false

/-- Discriminator: did `NewAction` succeed? -/
def isOkAction : Except ActionError Action → Bool
  | .ok _ => true
  | _ => false

/-- The value the last entry of a header enumeration gives to a key, if
any (auxiliary to reasoning about repeated `Header.Set`). -/
def lastVal (k : Str) : List (Str × Str) → Option Str
  | [] => none
  | kv :: rest =>
    match lastVal k rest with
    | some w => some w
    | none => if kv.1 = k then some kv.2 else none

/-- The header map claimed for the merge example: `Content-Type` set to
`application/json`, `A` to `1`, `B` to `3` (request wins) and `C` to `4`. -/
def exHeaders : Str → Option Str := fun k =>
  if k = contentTypeKey then some contentTypeVal
  else if k = "A".toList then some "1".toList
  else if k = "B".toList then some "3".toList
  else if k = "C".toList then some "4".toList
  else none

/-- A concrete request of the query-string variant, used as example input. -/
def exReq : Request :=
  ⟨"users".toList, "get".toList, [("B".toList, "3".toList), ("C".toList, "4".toList)], []⟩

/-- A concrete setting with a base URL and two default headers. -/
def exSetting : Setting :=
  ⟨"https://httpbin.dev/anything".toList, [("A".toList, "1".toList), ("B".toList, "2".toList)]⟩

/-- The outbound request the code builds from `exReq` and `exSetting`. -/
def exBuilt : HTTPRequest :=
  ⟨"https://httpbin.dev/anything/users".toList, "get".toList,
   applyHeaders (applyHeaders (mapSet mapEmpty contentTypeKey contentTypeVal)
     exSetting.headers) exReq.headers, none⟩

/-! ## Lemmas about the scanning loop -/

/-- A token formed by the flag marker followed by a name is a flag token. -/
lemma isFlagTok_mark_append (n : Str) : isFlagTok (flagMark ++ n) = true := by
  simp [isFlagTok, flagMark, List.isPrefixOf]

/-- Stripping the marker from a marker-plus-name token yields the name. -/
lemma flagName_mark_append (n : Str) : flagName (flagMark ++ n) = n := by
  simp [flagName, isFlagTok, flagMark, List.isPrefixOf]

/-- Unfolding of the scanner step at a flag token. -/
lemma scanStep_flag (s : ScanState) (t : Str) (h : isFlagTok t = true) :
    scanStep s t = { s with readingFlag := true, lastFlag := flagName t,
                            options := mapSet s.options (flagName t) [] } := by
  simp [scanStep, h]

/-- Unfolding of the scanner step at a non-flag token in flag mode. -/
lemma scanStep_value (s : ScanState) (t : Str) (h : isFlagTok t = false)
    (hs : s.readingFlag = true) :
    scanStep s t = { s with options := mapSet s.options s.lastFlag t } := by
  simp [scanStep, h, hs]

/-- Unfolding of the scanner step at a non-flag token out of flag mode. -/
lemma scanStep_path (s : ScanState) (t : Str) (h : isFlagTok t = false)
    (hs : s.readingFlag = false) :
    scanStep s t = { s with path := s.path ++ [t] } := by
  simp [scanStep, h, hs]

/-- Once the scanner is in flag mode, the path components never change. -/
lemma scan_path_stable (ts : List Str) :
    ∀ s : ScanState, s.readingFlag = true → (ts.foldl scanStep s).path = s.path := by
  induction ts with
  | nil => intro s _; rfl
  | cons t ts ih =>
    intro s hs
    rw [List.foldl_cons]
    by_cases h : isFlagTok t
    · rw [scanStep_flag s t h]
      exact ih _ rfl
    · rw [scanStep_value s t (by simpa using h) hs]
      exact ih _ hs

/-- Out of flag mode, the scanner appends exactly the tokens up to (and
excluding) the first flag token to the path. -/
lemma scan_path_accum (ts : List Str) :
    ∀ s : ScanState, s.readingFlag = false →
      (ts.foldl scanStep s).path = s.path ++ ts.takeWhile (fun t => !(isFlagTok t)) := by
  induction ts with
  | nil => intro s _; simp
  | cons t ts ih =>
    intro s hs
    rw [List.foldl_cons]
    by_cases h : isFlagTok t
    · rw [scanStep_flag s t h, scan_path_stable ts _ rfl]
      simp [List.takeWhile_cons, h]
    · rw [scanStep_path s t (by simpa using h) hs,
          ih { s with path := s.path ++ [t] } (by simp [hs])]
      simp [List.takeWhile_cons, h]

/-- The value the scanner ends up giving to a key depends only on the flag
mode, the pending flag name, and the current value at that key. -/
lemma scan_options_agree (ts : List Str) :
    ∀ s₁ s₂ : ScanState, ∀ key : Str,
      s₁.readingFlag = s₂.readingFlag → s₁.lastFlag = s₂.lastFlag →
      s₁.options key = s₂.options key →
      (ts.foldl scanStep s₁).options key = (ts.foldl scanStep s₂).options key := by
  induction ts with
  | nil => intro s₁ s₂ key _ _ h; exact h
  | cons t ts ih =>
    intro s₁ s₂ key hrf hlf hopt
    rw [List.foldl_cons, List.foldl_cons]
    by_cases h : isFlagTok t
    · rw [scanStep_flag s₁ t h, scanStep_flag s₂ t h]
      refine ih _ _ key rfl rfl ?_
      by_cases hk : key = flagName t <;> simp [mapSet, hk, hopt]
    · have h' : isFlagTok t = false := by simpa using h
      by_cases hr : s₁.readingFlag = true
      · have hr₂ : s₂.readingFlag = true := hrf ▸ hr
        rw [scanStep_value s₁ t h' hr, scanStep_value s₂ t h' hr₂]
        refine ih _ _ key hrf hlf ?_
        by_cases hk : key = s₁.lastFlag
        · simp [mapSet, hk, hlf]
        · have hk₂ : ¬ key = s₂.lastFlag := fun hc => hk (hlf ▸ hc)
          simp [mapSet, hk, hk₂, hopt]
      · have hr₁ : s₁.readingFlag = false := by simpa using hr
        have hr₂ : s₂.readingFlag = false := hrf ▸ hr₁
        rw [scanStep_path s₁ t h' hr₁, scanStep_path s₂ t h' hr₂]
        exact ih _ _ key hrf hlf hopt

/-! ## Claim C2 -/

/-- C2: Tokenizer scanning rule: every token before the first `--`-prefixed
token is appended, in order, to the path components; a `--`-prefixed token
enters flag mode, strips the marker, becomes the pending flag name and
records the empty string as its value immediately; the next non-flag token
while in flag mode overwrites the pending flag's value; and once flag mode
begins no later token is ever added to the path components. -/
theorem tokenizer_scanning_rule :
    (∀ ts : List Str, (scanArgs ts).path = ts.takeWhile (fun t => !(isFlagTok t))) ∧
    (∀ (s : ScanState) (t : Str), isFlagTok t = true →
      (scanStep s t).readingFlag = true ∧ (scanStep s t).lastFlag = flagName t ∧
      (scanStep s t).options (flagName t) = some [] ∧ (scanStep s t).path = s.path) ∧
    (∀ (s : ScanState) (t : Str), isFlagTok t = false → s.readingFlag = true →
      (scanStep s t).options s.lastFlag = some t ∧ (scanStep s t).path = s.path) ∧
    (∀ (ts : List Str) (s : ScanState), s.readingFlag = true →
      (ts.foldl scanStep s).path = s.path) := by
  refine ⟨?_, ?_, ?_, fun ts s h => scan_path_stable ts s h⟩
  · intro ts
    simpa using scan_path_accum ts initScan rfl
  · intro s t h
    rw [scanStep_flag s t h]
    exact ⟨rfl, rfl, by simp [mapSet], rfl⟩
  · intro s t h hs
    rw [scanStep_value s t h hs]
    exact ⟨by simp [mapSet], rfl⟩

/-- C2 witness: the scanning rule at concrete inputs. -/
theorem tokenizer_scanning_rule_witness :
    (scanArgs ["users".toList, "--include".toList, "posts".toList]).path
      = ["users".toList] ∧
    (scanStep initScan "--include".toList).options "include".toList = some [] ∧
    (scanStep ⟨true, "include".toList, mapEmpty, []⟩ "posts".toList).options
      "include".toList = some "posts".toList := by
  obtain ⟨h1, h2, h3, _⟩ := tokenizer_scanning_rule
  refine ⟨?_, ?_, ?_⟩
  · exact (h1 ["users".toList, "--include".toList, "posts".toList]).trans (by decide)
  · have h := (h2 initScan "--include".toList (by decide)).2.2.1
    exact (show flagName "--include".toList = "include".toList by decide) ▸ h
  · exact (h3 ⟨true, "include".toList, mapEmpty, []⟩ "posts".toList (by decide) rfl).1

/-! ## Claim C3 -/

/-- C3 counterexample: the claim says method acceptance is case-insensitive,
but `NewAction ["httpbin", "GET"]` is rejected with the unsupported-method
error because `validateHTTPMethod` compares the raw token against the
lowercased accepted set. -/
theorem method_case_counterexample :
    isOkAction (NewAction ["httpbin".toList, "GET".toList]) = false ∧
    isUnsupportedErr (NewAction ["httpbin".toList, "GET".toList]) = true := by
  decide

/-- C3 (amended): method acceptance at tokenization is an exact-string match
against the lowercase set `acceptedMethods`; when token 1 is in that set,
`NewAction` succeeds and yields exactly the path components preceding the
first `--`-prefixed token, and when it is not, `NewAction` fails with an
unsupported-method error naming the accepted set. -/
theorem method_acceptance_amended (a m : Str) (rest : List Str) :
    (m ∈ acceptedMethods →
      ∃ act, NewAction (a :: m :: rest) = .ok act ∧ act.urlAlias = a ∧
        act.httpMethod = m ∧
        act.urlPathComponents = rest.takeWhile (fun t => !(isFlagTok t))) ∧
    (m ∉ acceptedMethods →
      ∃ msg, NewAction (a :: m :: rest) = .error (.unsupportedMethod msg) ∧
        strContains (joinSep ", ".toList acceptedMethods) msg) := by
  constructor
  · intro hm
    refine ⟨⟨a, m, (scanArgs rest).path, (scanArgs rest).options⟩, ?_, rfl, rfl, ?_⟩
    · simp [NewAction, validateHTTPMethod, hm]
    · simpa using scan_path_accum rest initScan rfl
  · intro hm
    refine ⟨"unsuported http method: ".toList ++ ("invalid http method, only ".toList ++
        joinSep ", ".toList acceptedMethods ++ " are supported".toList), ?_,
      "unsuported http method: ".toList ++ "invalid http method, only ".toList,
      " are supported".toList, by simp [List.append_assoc]⟩
    simp [NewAction, validateHTTPMethod, hm]

/-- C3 witness: `get` is accepted with the path components before the first
flag token, and `post` is rejected with an error naming the accepted set. -/
theorem method_acceptance_amended_witness :
    (∃ act, NewAction ["httpbin".toList, "get".toList, "users".toList,
        "--k".toList, "v".toList] = .ok act ∧ act.urlAlias = "httpbin".toList ∧
      act.httpMethod = "get".toList ∧
      act.urlPathComponents = (["users".toList, "--k".toList, "v".toList].takeWhile
        (fun t => !(isFlagTok t)))) ∧
    (∃ msg, NewAction ["httpbin".toList, "post".toList]
        = .error (.unsupportedMethod msg) ∧
      strContains (joinSep ", ".toList acceptedMethods) msg) :=
  ⟨(method_acceptance_amended "httpbin".toList "get".toList
      ["users".toList, "--k".toList, "v".toList]).1 (by decide),
   (method_acceptance_amended "httpbin".toList "post".toList []).2 (by decide)⟩

/-! ## Claim C9 -/

/-- C9: `NewAction` produces an error matching the distinct invalid-format
error exactly when the argument list has fewer than two tokens; an
unrecognized method token produces the unsupported-method error, which does
not match the invalid-format error. -/
theorem invalidFormat_discrimination (args : List Str) :
    isInvalidFormatErr (NewAction args) = decide (args.length < 2) := by
  match args with
  | [] => rfl
  | [a] => rfl
  | a :: m :: rest =>
    have hlen : decide ((a :: m :: rest).length < 2) = false :=
      decide_eq_false (by simp)
    rw [hlen]
    cases hv : validateHTTPMethod m with
    | ok u => simp [NewAction, hv, isInvalidFormatErr]
    | error e => simp [NewAction, hv, isInvalidFormatErr]

/-! ## Claim C10 -/

/-- C10: repeated flag names are last-occurrence-wins with value reset: the
final options value of a flag name is determined solely by the tokens from
its last `--name` occurrence onward (scanning any earlier tokens makes no
difference), and for tokens `--x v --x` after alias and method the resulting
options map holds exactly `x` with the empty string, discarding `v`. -/
theorem repeatedFlag_lastReset :
    (∀ (name : Str) (pre suf : List Str),
      (scanArgs (pre ++ (flagMark ++ name) :: suf)).options name =
        (scanArgs ((flagMark ++ name) :: suf)).options name) ∧
    (∃ act, NewAction ["al".toList, "get".toList, "--x".toList, "v".toList,
        "--x".toList] = .ok act ∧ act.options "x".toList = some [] ∧
      act.options = fun k => if k = "x".toList then some [] else none) := by
  constructor
  · intro name pre suf
    unfold scanArgs
    rw [List.foldl_append, List.foldl_cons, List.foldl_cons]
    refine scan_options_agree suf _ _ name ?_ ?_ ?_
    · rw [scanStep_flag _ _ (isFlagTok_mark_append name),
          scanStep_flag _ _ (isFlagTok_mark_append name)]
    · rw [scanStep_flag _ _ (isFlagTok_mark_append name),
          scanStep_flag _ _ (isFlagTok_mark_append name)]
    · rw [scanStep_flag _ _ (isFlagTok_mark_append name),
          scanStep_flag _ _ (isFlagTok_mark_append name)]
      simp [flagName_mark_append, mapSet]
  · have hopts : (scanArgs ["--x".toList, "v".toList, "--x".toList]).options =
        mapSet (mapSet (mapSet mapEmpty "x".toList []) "x".toList "v".toList)
          "x".toList [] := rfl
    refine ⟨⟨"al".toList, "get".toList,
      (scanArgs ["--x".toList, "v".toList, "--x".toList]).path,
      (scanArgs ["--x".toList, "v".toList, "--x".toList]).options⟩, rfl, ?_, ?_⟩
    · rw [hopts]; simp [mapSet]
    · rw [hopts]
      funext k
      simp only [show ("x".toList : Str) = ['x'] from rfl]
      by_cases hk : k = ['x'] <;> simp [mapSet, mapEmpty, hk]

/-! ## Lemmas about the query string -/

/-- The query fold from an arbitrary accumulator. -/
lemma queryFold_acc (l : List (Str × Str)) :
    ∀ acc : Str,
      l.foldl (fun acc kv => acc ++ '&' :: (kv.1 ++ '=' :: kv.2)) acc
        = acc ++ queryFold l := by
  induction l with
  | nil => intro acc; simp [queryFold]
  | cons kv l ih =>
    intro acc
    rw [List.foldl_cons, ih]
    have h0 : queryFold (kv :: l) = ('&' :: (kv.1 ++ '=' :: kv.2)) ++ queryFold l := by
      rw [queryFold, List.foldl_cons]
      exact (ih _).trans (by simp)
    rw [h0, List.append_assoc]

/-- Unfolding of the query fold at a cons. -/
lemma queryFold_cons (kv : Str × Str) (l : List (Str × Str)) :
    queryFold (kv :: l) = '&' :: ((kv.1 ++ '=' :: kv.2) ++ queryFold l) := by
  rw [queryFold, List.foldl_cons]
  exact (queryFold_acc l _).trans (by simp)

/-- The serialized query of a nonempty map starts with its first pair. -/
lemma queryToURL_cons (kv : Str × Str) (l : List (Str × Str)) :
    queryToURL (kv :: l) = (kv.1 ++ '=' :: kv.2) ++ queryFold l := by
  rw [queryToURL, queryFold_cons]
  simp

/-- The serialized query is empty exactly for the empty map. -/
lemma queryToURL_eq_nil_iff (l : List (Str × Str)) : queryToURL l = [] ↔ l = [] := by
  cases l with
  | nil => simp [queryToURL, queryFold]
  | cons kv l => simp [queryToURL_cons]

/-- For a nonempty map the serialized query is the `key=value` pairs joined
with `&`. -/
lemma queryToURL_intercalate (l : List (Str × Str)) (h : l ≠ []) :
    queryToURL l = List.intercalate ['&'] (l.map fun kv => kv.1 ++ '=' :: kv.2) := by
  induction l with
  | nil => exact absurd rfl h
  | cons kv l ih =>
    rw [queryToURL_cons]
    cases l with
    | nil => simp [queryFold, List.intercalate]
    | cons kv' l' =>
      have h1 : queryFold (kv' :: l') = '&' :: queryToURL (kv' :: l') := by
        rw [queryFold_cons, queryToURL_cons]
      rw [h1, ih (by simp), List.map_cons]
      simp [List.intercalate, List.intersperse_cons_cons]

/-- Taking characters up to the first `=` of `k ++ '=' :: v` gives `k` when
`k` itself has no `=`. -/
lemma takeWhile_pair (k v : Str) (hk : '=' ∉ k) :
    (k ++ '=' :: v).takeWhile (fun c => c ≠ '=') = k := by
  induction k with
  | nil => simp [List.takeWhile_cons]
  | cons c k ih =>
    have hc : c ≠ '=' := fun hc => hk (hc ▸ List.mem_cons_self c k)
    have hk' : '=' ∉ k := fun hm => hk (List.mem_cons_of_mem c hm)
    simp [List.takeWhile_cons, hc, ih hk']
    simpa using ih hk'

/-- Dropping characters up to the first `=` of `k ++ '=' :: v` leaves
`'=' :: v` when `k` itself has no `=`. -/
lemma dropWhile_pair (k v : Str) (hk : '=' ∉ k) :
    (k ++ '=' :: v).dropWhile (fun c => c ≠ '=') = '=' :: v := by
  induction k with
  | nil => simp [List.dropWhile_cons]
  | cons c k ih =>
    have hc : c ≠ '=' := fun hc => hk (hc ▸ List.mem_cons_self c k)
    have hk' : '=' ∉ k := fun hm => hk (List.mem_cons_of_mem c hm)
    simp [List.dropWhile_cons, hc]
    simpa using ih hk'

/-- Re-splitting one rendered pair recovers the pair when the key has no
`=`. -/
lemma splitKV_pair (kv : Str × Str) (hk : '=' ∉ kv.1) :
    splitKV (kv.1 ++ '=' :: kv.2) = kv := by
  rw [splitKV, takeWhile_pair kv.1 kv.2 hk, dropWhile_pair kv.1 kv.2 hk]
  simp

/-! ## Claim C4 -/

/-- C4 counterexample: the round trip fails on the flag map with the single
entry `a = x&y`, because the unencoded `&` in the value is re-split as a pair
separator. -/
theorem query_roundtrip_counterexample :
    parseQuery (queryToURL [("a".toList, "x&y".toList)])
      ≠ [("a".toList, "x&y".toList)] := by
  decide

/-- C4 (amended): for every flag map whose keys contain neither `&` nor `=`
and whose values contain no `&`, composing the query string with
`QueryString.ToURL` and re-splitting it (by `&` into pairs, then each pair at
the first `=`) recovers exactly the original key/value pairs, in the
serialization order, hence the original key/value set regardless of that
order. -/
theorem query_roundtrip_amended (l : List (Str × Str))
    (h : ∀ kv ∈ l, '&' ∉ kv.1 ∧ '=' ∉ kv.1 ∧ '&' ∉ kv.2) :
    parseQuery (queryToURL l) = l := by
  cases l with
  | nil => rfl
  | cons kv l' =>
    have hne : queryToURL (kv :: l') ≠ [] := by
      rw [ne_eq, queryToURL_eq_nil_iff]
      simp
    simp only [parseQuery, if_neg hne]
    rw [queryToURL_intercalate _ (by simp)]
    rw [List.splitOn_intercalate _ '&' ?hx ?hls]
    case hx =>
      intro part hp
      obtain ⟨kv', hm, rfl⟩ := List.mem_map.mp hp
      obtain ⟨h1, _, h3⟩ := h kv' hm
      simp [List.mem_append, h1, h3]
    case hls => simp
    rw [List.map_map]
    have hcongr : ∀ kv' ∈ (kv :: l'),
        (splitKV ∘ fun kv : Str × Str => kv.1 ++ '=' :: kv.2) kv' = id kv' := by
      intro kv' hm
      exact splitKV_pair kv' (h kv' hm).2.1
    rw [List.map_congr_left hcongr, List.map_id]

/-- C4 witness: the round trip at a concrete two-entry flag map. -/
theorem query_roundtrip_amended_witness :
    parseQuery (queryToURL [("name".toList, "john".toList),
        ("age".toList, "30".toList)])
      = [("name".toList, "john".toList), ("age".toList, "30".toList)] :=
  query_roundtrip_amended _ (by decide)

/-! ## Claim C6 -/

/-- C6: the composed path joins the components with `/` without collapsing
empty components (`api`, ``, `users` yields `api//users`); a nonempty flag
map appends `?` and the `key=value` pairs joined with `&`; an empty flag map
yields no `?` suffix at all. -/
theorem path_query_composition :
    pathCompsToURL ["api".toList, [], "users".toList] = "api//users".toList ∧
    (∀ (p : List Str) (q : List (Str × Str)), q ≠ [] →
      urlPath p q = pathCompsToURL p ++ '?' :: queryToURL q ∧
      queryToURL q = List.intercalate ['&'] (q.map fun kv => kv.1 ++ '=' :: kv.2)) ∧
    (∀ p : List Str, urlPath p [] = pathCompsToURL p) := by
  refine ⟨by decide, ?_, fun p => rfl⟩
  intro p q hq
  have hne : queryToURL q ≠ [] := by
    rw [ne_eq, queryToURL_eq_nil_iff]
    exact hq
  exact ⟨by simp only [urlPath, if_neg hne], queryToURL_intercalate q hq⟩

/-- C6 witness: composition at a concrete path and nonempty flag map. -/
theorem path_query_composition_witness :
    urlPath ["users".toList] [("include".toList, "posts".toList)]
        = pathCompsToURL ["users".toList] ++ '?' ::
          queryToURL [("include".toList, "posts".toList)] ∧
    queryToURL [("include".toList, "posts".toList)]
        = List.intercalate ['&']
            ([("include".toList, "posts".toList)].map fun kv => kv.1 ++ '=' :: kv.2) :=
  path_query_composition.2.1 ["users".toList] [("include".toList, "posts".toList)]
    (by decide)

/-! ## Lemmas about header application -/

/-- Applying an enumeration of header entries by repeated `Header.Set` reads
back, at each key, the last entry for that key, falling back to the starting
map. -/
lemma applyHeaders_apply (l : List (Str × Str)) :
    ∀ (h : Str → Option Str) (k : Str),
      applyHeaders h l k = (lastVal k l).or (h k) := by
  induction l with
  | nil => intro h k; rfl
  | cons kv l ih =>
    intro h k
    have hstep : applyHeaders h (kv :: l) = applyHeaders (mapSet h kv.1 kv.2) l := rfl
    rw [hstep, ih]
    rcases hl : lastVal k l with _ | w
    · by_cases hk : kv.1 = k
      · simp [lastVal, hl, hk, mapSet, Option.or]
      · have hk' : ¬ k = kv.1 := fun hc => hk hc.symm
        simp [lastVal, hl, hk, hk', mapSet, Option.or]
    · simp [lastVal, hl, Option.or]

/-- When the enumeration has pairwise distinct keys, the read-back value at
any key is invariant under permutation of the enumeration. -/
lemma lastVal_perm {l l' : List (Str × Str)} (h : l.Perm l') :
    (l.map Prod.fst).Nodup → ∀ k, lastVal k l = lastVal k l' := by
  induction h with
  | nil => intro _ k; rfl
  | @cons x l₁ l₂ h ih =>
    intro hnd k
    have hnd' : (l₁.map Prod.fst).Nodup := by
      simpa using (List.nodup_cons.mp (by simpa using hnd)).2
    simp only [lastVal]
    rw [ih hnd' k]
  | @swap x y l =>
    intro hnd k
    have hxy : y.1 ≠ x.1 := by
      have h0 := hnd
      simp only [List.map_cons, List.nodup_cons, List.mem_cons] at h0
      exact fun hc => h0.1 (Or.inl hc)
    simp only [lastVal]
    rcases hl : lastVal k l with _ | w
    · by_cases hx : x.1 = k <;> by_cases hy : y.1 = k <;> simp [hx, hy]
      exact absurd (hy.trans hx.symm) hxy
    · simp
  | @trans l₁ l₂ l₃ h₁ h₂ ih₁ ih₂ =>
    intro hnd k
    have hnd₂ : (l₂.map Prod.fst).Nodup := ((h₁.map Prod.fst).nodup_iff).mp hnd
    rw [ih₁ hnd k, ih₂ hnd₂ k]

/-! ## Claim C1 -/

/-- C1: the outbound header assembly first sets `Content-Type:
application/json`, then applies every config default header, then every
request header, each apply overwriting a same-named earlier entry and leaving
other keys unchanged; in particular, for config headers `A=1, B=2` and
request headers `B=3, C=4` (in either enumeration order of the two maps) the
resulting header map is exactly `Content-Type=application/json, A=1, B=3,
C=4`. -/
theorem header_merge_spec :
    (∀ (h : Str → Option Str) (k v : Str), mapSet h k v k = some v) ∧
    (∀ (h : Str → Option Str) (k v q : Str), q ≠ k → mapSet h k v q = h q) ∧
    (∀ (r : Request) (s : Setting) (req : HTTPRequest), toHTTPRequest r s = .ok req →
      req.headers = applyHeaders (applyHeaders
        (mapSet mapEmpty contentTypeKey contentTypeVal) s.headers) r.headers) ∧
    (∀ cfg rh : List (Str × Str),
      cfg.Perm [("A".toList, "1".toList), ("B".toList, "2".toList)] →
      rh.Perm [("B".toList, "3".toList), ("C".toList, "4".toList)] →
      applyHeaders (applyHeaders (mapSet mapEmpty contentTypeKey contentTypeVal) cfg) rh
        = exHeaders) := by
  refine ⟨fun h k v => by simp [mapSet], fun h k v q hq => by simp [mapSet, hq], ?_, ?_⟩
  · intro r s req hok
    rw [toHTTPRequest] at hok
    cases hb : buildHTTPRequest r s with
    | error e => rw [hb] at hok; cases hok
    | ok req₀ =>
      rw [hb] at hok
      have hemp : req₀.headers = mapEmpty := by
        simp only [buildHTTPRequest] at hb
        split at hb
        · cases hb; rfl
        · cases hb
      cases hok
      rw [hemp]
  · intro cfg rh hc hr
    funext k
    have ndc : (cfg.map Prod.fst).Nodup := ((hc.map Prod.fst).nodup_iff).mpr (by decide)
    have ndr : (rh.map Prod.fst).Nodup := ((hr.map Prod.fst).nodup_iff).mpr (by decide)
    rw [applyHeaders_apply, applyHeaders_apply,
        lastVal_perm hr ndr k, lastVal_perm hc ndc k]
    by_cases h1 : k = contentTypeKey
    · subst h1; decide
    by_cases h2 : k = "A".toList
    · subst h2; decide
    by_cases h3 : k = "B".toList
    · subst h3; decide
    by_cases h4 : k = "C".toList
    · subst h4; decide
    have e2 : ¬ k = (['A'] : Str) := h2
    have e3 : ¬ k = (['B'] : Str) := h3
    have e4 : ¬ k = (['C'] : Str) := h4
    have s2 : ¬ (['A'] : Str) = k := fun hc => e2 hc.symm
    have s3 : ¬ (['B'] : Str) = k := fun hc => e3 hc.symm
    have s4 : ¬ (['C'] : Str) = k := fun hc => e4 hc.symm
    simp [lastVal, exHeaders, mapSet, mapEmpty, Option.or, h1, h2, h3, h4,
      e2, e3, e4, s2, s3, s4]

/-- C1 witness: the merge at concrete inputs — overwrite-freeness at a
fresh key, the header pipeline of a concretely built request, and the
claimed example map for the given enumeration order. -/
theorem header_merge_spec_witness :
    mapSet mapEmpty "A".toList "1".toList "Z".toList = mapEmpty "Z".toList ∧
    exBuilt.headers = applyHeaders (applyHeaders
      (mapSet mapEmpty contentTypeKey contentTypeVal) exSetting.headers) exReq.headers ∧
    applyHeaders (applyHeaders (mapSet mapEmpty contentTypeKey contentTypeVal)
        [("A".toList, "1".toList), ("B".toList, "2".toList)])
        [("B".toList, "3".toList), ("C".toList, "4".toList)] = exHeaders :=
  ⟨header_merge_spec.2.1 mapEmpty "A".toList "1".toList "Z".toList (by decide),
   header_merge_spec.2.2.1 exReq exSetting exBuilt rfl,
   header_merge_spec.2.2.2 _ _ (List.Perm.refl _) (List.Perm.refl _)⟩

/-! ## Lemmas about the request builder -/

/-- For an accepted (case-insensitively GET or DELETE) method, the builder
yields the bodiless request at the composed URL. -/
lemma buildHTTPRequest_ok_of (r : Request) (s : Setting)
    (hc : toUpperStr r.method = "GET".toList ∨ toUpperStr r.method = "DELETE".toList) :
    buildHTTPRequest r s = .ok ⟨s.url ++ '/' :: r.path ++
        (if r.arguments = [] then [] else '?' :: queryToURL r.arguments),
      r.method, mapEmpty, none⟩ := by
  simp only [buildHTTPRequest, if_pos hc]
  by_cases hq : r.arguments = []
  · simp [hq, queryToURL, queryFold]
  · have hq' : queryToURL r.arguments ≠ [] := by
      rw [ne_eq, queryToURL_eq_nil_iff]
      exact hq
    simp [hq, hq']

/-- For any other method the builder fails with the unsupported-method
error. -/
lemma buildHTTPRequest_err_of (r : Request) (s : Setting)
    (hc : ¬(toUpperStr r.method = "GET".toList ∨ toUpperStr r.method = "DELETE".toList)) :
    buildHTTPRequest r s = .error "method not suported".toList := by
  simp only [buildHTTPRequest, if_neg hc]

/-! ## Claim C5 -/

/-- C5: when the request's method compares equal case-insensitively to GET
or DELETE, `ToHTTPRequest` succeeds with a bodiless request whose URL is the
setting's base URL, a single `/`, the path string, and — only when the flags
map is nonempty — `?` followed by the serialized flags; any other method is
rejected with the unsupported-method error; and an empty path with no flags
yields a URL ending in a trailing slash. -/
theorem request_builder_spec (r : Request) (s : Setting) :
    ((toUpperStr r.method = "GET".toList ∨ toUpperStr r.method = "DELETE".toList) →
      ∃ req, toHTTPRequest r s = .ok req ∧ req.body = none ∧ req.method = r.method ∧
        req.url = s.url ++ '/' :: r.path ++
          (if r.arguments = [] then [] else '?' :: queryToURL r.arguments)) ∧
    (¬(toUpperStr r.method = "GET".toList ∨ toUpperStr r.method = "DELETE".toList) →
      toHTTPRequest r s = .error "method not suported".toList) ∧
    ((toUpperStr r.method = "GET".toList ∨ toUpperStr r.method = "DELETE".toList) →
      r.path = [] → r.arguments = [] →
      ∃ req, toHTTPRequest r s = .ok req ∧ req.url = s.url ++ ['/']) := by
  refine ⟨?_, ?_, ?_⟩
  · intro hc
    refine ⟨⟨s.url ++ '/' :: r.path ++
        (if r.arguments = [] then [] else '?' :: queryToURL r.arguments), r.method,
        applyHeaders (applyHeaders (mapSet mapEmpty contentTypeKey contentTypeVal)
          s.headers) r.headers, none⟩, ?_, rfl, rfl, rfl⟩
    simp only [toHTTPRequest, buildHTTPRequest_ok_of r s hc]
  · intro hc
    simp only [toHTTPRequest, buildHTTPRequest_err_of r s hc]
  · intro hc hp hq
    refine ⟨⟨s.url ++ '/' :: r.path ++
        (if r.arguments = [] then [] else '?' :: queryToURL r.arguments), r.method,
        applyHeaders (applyHeaders (mapSet mapEmpty contentTypeKey contentTypeVal)
          s.headers) r.headers, none⟩, ?_, ?_⟩
    · simp only [toHTTPRequest, buildHTTPRequest_ok_of r s hc]
    · simp [hp, hq]

/-- C5 witness: a GET request builds with the expected URL and no body, an
empty path with no flags yields a trailing slash, and POST is rejected. -/
theorem request_builder_spec_witness :
    (∃ req, toHTTPRequest exReq exSetting = .ok req ∧ req.body = none ∧
      req.method = "get".toList ∧
      req.url = exSetting.url ++ '/' :: exReq.path ++
        (if exReq.arguments = [] then [] else '?' :: queryToURL exReq.arguments)) ∧
    toHTTPRequest ⟨"users".toList, "post".toList, [], []⟩ exSetting
      = .error "method not suported".toList ∧
    (∃ req, toHTTPRequest ⟨[], "get".toList, [], []⟩ exSetting = .ok req ∧
      req.url = exSetting.url ++ ['/']) :=
  ⟨(request_builder_spec exReq exSetting).1 (by decide),
   (request_builder_spec ⟨"users".toList, "post".toList, [], []⟩ exSetting).2.1 (by decide),
   (request_builder_spec ⟨[], "get".toList, [], []⟩ exSetting).2.2 (by decide) rfl rfl⟩

/-! ## Claim C7 -/

/-- C7: alias resolution is exact-string lookup in the loaded configuration
map: a present alias returns its stored entry unchanged, and an absent alias
returns an error whose message contains the literal alias string and the
config file path, never a fallback entry. -/
theorem alias_resolution_spec (settings : List (Str × Setting)) (a p : Str) :
    (∀ st, lookupAlias settings a = some st → settingFor settings a p = .ok st) ∧
    (lookupAlias settings a = none →
      ∃ e, settingFor settings a p = .error e ∧ strContains a e ∧ strContains p e) := by
  constructor
  · intro st h
    simp [settingFor, h]
  · intro h
    refine ⟨"no config found for ".toList ++ a ++ ", make sure it exists at ".toList ++ p,
      by simp [settingFor, h], ?_, ?_⟩
    · exact ⟨"no config found for ".toList, ", make sure it exists at ".toList ++ p,
        by simp [List.append_assoc]⟩
    · exact ⟨"no config found for ".toList ++ a ++ ", make sure it exists at ".toList, [],
        by simp [List.append_assoc]⟩

/-- C7 witness: a hit returns the stored entry, and a miss produces an error
containing the alias and the config path. -/
theorem alias_resolution_spec_witness :
    settingFor [("httpbin".toList, exSetting)] "httpbin".toList "/cfg".toList
      = .ok exSetting ∧
    (∃ e, settingFor [("httpbin".toList, exSetting)] "nope".toList "/cfg".toList
        = .error e ∧ strContains "nope".toList e ∧ strContains "/cfg".toList e) :=
  ⟨(alias_resolution_spec [("httpbin".toList, exSetting)] "httpbin".toList
      "/cfg".toList).1 exSetting rfl,
   (alias_resolution_spec [("httpbin".toList, exSetting)] "nope".toList
      "/cfg".toList).2 rfl⟩

/-! ## Claim C8 -/

/-- C8: response formatting is total: for every byte sequence the formatter
attempts a JSON decode; on success it returns the re-serialized value, and on
decode failure it returns the raw bytes unchanged with no error — a
malformed or non-JSON response is never treated as an error. -/
theorem response_formatting_total (decode : Str → Option Js) (render : Js → Str)
    (resp : Str) :
    (∃ out, prettyResponse decode render resp = .ok out) ∧
    (decode resp = none → prettyResponse decode render resp = .ok resp) ∧
    (∀ j, decode resp = some j → prettyResponse decode render resp = .ok (render j)) := by
  refine ⟨?_, ?_, ?_⟩
  · cases h : decode resp with
    | none => exact ⟨resp, by simp [prettyResponse, h]⟩
    | some j => exact ⟨render j, by simp [prettyResponse, h]⟩
  · intro h
    simp [prettyResponse, h]
  · intro j h
    simp [prettyResponse, h]

/-- C8 witness: a non-JSON body is echoed verbatim with no error. -/
theorem response_formatting_total_witness :
    prettyResponse (fun _ => none) (fun _ => []) "not json".toList
      = .ok "not json".toList :=
  (response_formatting_total (fun _ => none) (fun _ => []) "not json".toList).2.1 rfl

end Ashttp
